import Mathlib

/-!
Verification of the XML editorial validator (src/app.py).

The module is a linear pipeline over an XML document.  We model a parsed
document as the list of elements produced by `root.iter()` in document
order: each element carries its raw tag string (namespaced tags appear as
`{uri}Local`, exactly as ElementTree / lxml render them) and its optional
text.  The Python regular expressions used by the program are simple
enough to be translated into explicit character scans, which we do match
by match below; machine strings are Lean `String`s, scanned as `List Char`.
-/

/-- Whitespace test matching Python's `str.strip` / regex `\s` on the
ASCII range used by the program. -/
def isSpaceCh (c : Char) : Bool :=
  c == ' ' || c == '\t' || c == '\n' || c == '\r' || c == '\x0b' || c == '\x0c'

/-- Python `str.strip()` on a character list. -/
def stripChars (s : List Char) : List Char :=
  ((s.dropWhile isSpaceCh).reverse.dropWhile isSpaceCh).reverse

/-- Python `str.strip()` on a `String`. -/
def pyStrip (s : String) : String := (stripChars s.data).asString

/-- Opening brace character, written via its code point. -/
def lbrace : Char := Char.ofNat 123

/-- Closing brace character, written via its code point. -/
def rbrace : Char := Char.ofNat 125

/-- Drop characters up to and including the first closing brace
(helper for `localname`). -/
def dropNsTail : List Char → List Char
  | [] => []
  | c :: rest => if c == rbrace then rest else dropNsTail rest

/-- Local part of an XML tag, as computed by `etree.QName(tag).localname`:
a tag of the form `{uri}Local` yields `Local`, anything else is returned
unchanged. -/
def localname (tag : List Char) : List Char :=
  match tag with
  | [] => []
  | c :: rest => if c == lbrace then dropNsTail rest else c :: rest

/-- An XML element as seen through `root.iter()`: its raw tag and its
optional text (`None` in Python is `none` here). -/
structure XElem where
  tag : String
  text : Option String
deriving DecidableEq

/-- ASCII digit test (regex `\d`). -/
def isDigitCh (c : Char) : Bool := '0' ≤ c && c ≤ '9'

/-- Value of a nonempty digit string, as Python `int`. -/
def digitsVal (ds : List Char) : Int :=
  ds.foldl (fun acc c => acc * 10 + Int.ofNat (c.toNat - 48)) 0

/-- Separator class of the leading-number regex in
`extract_numbered_elements`: period, whitespace, tab, or the zero-width
space U+200B. -/
def isSepCh (c : Char) : Bool := c == '.' || isSpaceCh c || c == '\u200B'

/-- Result of matching the anchored leading-number pattern of
`extract_numbered_elements` on `text`, converted to an
integer: a nonempty leading digit run followed by at least one separator
character, else `none`. -/
def leadingNumber (text : List Char) : Option Int :=
  match text.takeWhile isDigitCh, text.dropWhile isDigitCh with
  | [], _ => none
  | _, [] => none
  | ds, c :: _ => if isSepCh c then some (digitsVal ds) else none

/-- Embedding of `extract_numbered_elements(root, tag_name)`: walk the
document, select elements whose tag's local name equals `tag_name`,
record stripped text and the parsed leading number. -/
def extract_numbered_elements (elems : List XElem) (tag_name : String) :
    List String × List (Option Int) :=
  elems.foldl (fun acc e =>
    if localname e.tag.data == tag_name.data then
      let text := pyStrip (e.text.getD "")
      (acc.1 ++ [text], acc.2 ++ [leadingNumber text.data])
    else acc) ([], [])

/-- Letter class of the answer-key regex: `[a-eA-E]`. -/
def isAnswerLetter (c : Char) : Bool := ('a' ≤ c && c ≤ 'e') || ('A' ≤ c && c ≤ 'E')

/-- One attempted match of `(\d+)\.\s*\(([a-eA-E])\)` anchored at the head
of `s`: on success returns the parsed number and the remainder of the
string after the match. -/
def answerMatchAt (s : List Char) : Option (Int × List Char) :=
  match s.takeWhile isDigitCh, s.dropWhile isDigitCh with
  | [], _ => none
  | ds, '.' :: r2 =>
    match r2.dropWhile isSpaceCh with
    | '(' :: c :: ')' :: r4 => if isAnswerLetter c then some (digitsVal ds, r4) else none
    | _ => none
  | _, _ => none

/-- Fuelled scan implementing `re.findall` for the answer-key pattern:
try a match at every position, emit the number and resume after each
match. -/
def answerScanAux : Nat → List Char → List Int
  | 0, _ => []
  | _ + 1, [] => []
  | fuel + 1, c :: rest =>
    match answerMatchAt (c :: rest) with
    | some (n, r) => n :: answerScanAux fuel r
    | none => answerScanAux fuel rest

/-- All `<number>. (<letter>)` citations in a text, in encounter order. -/
def answerScan (s : List Char) : List Int := answerScanAux s.length s

/-- Embedding of `extract_answer_keys(root)`: stripped texts of all
`Answer` elements (by local name) and the flat list of cited numbers. -/
def extract_answer_keys (elems : List XElem) : List String × List Int :=
  elems.foldl (fun acc e =>
    if localname e.tag.data == "Answer".data then
      let text := pyStrip (e.text.getD "")
      (acc.1 ++ [text], acc.2 ++ answerScan text.data)
    else acc) ([], [])

/-- Python `max` over a list (only ever applied to nonempty lists by the
program; the `0` default is unreachable there). -/
def pyMax : List Int → Int
  | [] => 0
  | x :: xs => xs.foldl max x

/-- The list `[a, a+1, ..., a+k-1]`. -/
def consecFrom : Int → Nat → List Int
  | _, 0 => []
  | a, k + 1 => a :: consecFrom (a + 1) k

/-- Python `list(range(1, m + 1))`. -/
def pyRange1 (m : Int) : List Int := consecFrom 1 m.toNat

/-- Adjacent pairs of the list that are not consecutive integers,
in encounter order (the `sequence_errors` loop of `detect_issues`). -/
def seqErrors : List Int → List (Int × Int)
  | a :: b :: rest => (if b ≠ a + 1 then [(a, b)] else []) ++ seqErrors (b :: rest)
  | _ => []

/-- Python `sorted` on an integer list. -/
def isortInt (l : List Int) : List Int := List.insertionSort (fun a b => a ≤ b) l

/-- The issue record returned by `detect_issues`. -/
structure IssueSet where
  missing : List Int
  duplicates : List Int
  sequence_errors : List (Int × Int)
deriving DecidableEq

/-- The `valid` filter of `detect_issues`: keep the integer entries. -/
def validOf (numbers : List (Option Int)) : List Int := numbers.filterMap id

/-- The `missing` computation of `detect_issues`:
`sorted(set(range(1, max(valid)+1)) - set(valid))`, guarded by `if valid:`. -/
def missingOf (valid : List Int) : List Int :=
  if valid = [] then []
  else isortInt (((pyRange1 (pyMax valid)).filter (fun x => decide (x ∉ valid))).dedup)

/-- The `duplicates` computation of `detect_issues`:
`sorted({x for x in valid if valid.count(x) > 1})`. -/
def duplicatesOf (valid : List Int) : List Int :=
  isortInt ((valid.filter (fun x => decide (1 < valid.count x))).dedup)

/-- Embedding of `detect_issues(numbers)`. -/
def detect_issues (numbers : List (Option Int)) : IssueSet :=
  { missing := missingOf (validOf numbers)
    duplicates := duplicatesOf (validOf numbers)
    sequence_errors := seqErrors (validOf numbers) }

/-- Question-number text: `text.split('.')[0].strip() if '.' in text else "?"`
(applied to the already-stripped question text). -/
def qnoOf (t : String) : String :=
  if '.' ∈ t.data then (stripChars (t.data.takeWhile (fun c => decide (c ≠ '.')))).asString
  else "?"

/-- Python truthiness of the `current_question` variable: `None` and the
empty string are falsy. -/
def truthy : Option String → Bool
  | none => false
  | some s => !(s == "")

/-- One record of `extract_questions_with_options`:
`(question number text, question text, option-block texts)`. -/
abbrev QRec := String × String × List String

/-- The traversal loop of `extract_questions_with_options`, carried out
over the element list with the three loop variables as explicit state. -/
def extractQAux : Option String → String → List String → List XElem → List QRec
  | cq, cqno, copts, [] =>
    if truthy cq && !copts.isEmpty then [(cqno, cq.getD "", copts)] else []
  | cq, cqno, copts, e :: rest =>
    if e.tag == "Question" then
      (if truthy cq && !copts.isEmpty then [(cqno, cq.getD "", copts)] else []) ++
        (let t := pyStrip (e.text.getD "")
         extractQAux (some t) (qnoOf t) [] rest)
    else if e.tag == "Option-2" then
      extractQAux cq cqno (copts ++ [pyStrip (e.text.getD "")]) rest
    else
      extractQAux cq cqno copts rest

/-- Embedding of `extract_questions_with_options`: note that this
function compares the raw element tag with `"Question"` / `"Option-2"`
(no `QName` local-name projection). -/
def extract_questions_with_options (elems : List XElem) : List QRec :=
  extractQAux none "?" [] elems

/-- The option-block texts that occur before the next `Question` element
(raw-tag comparison, as in the source). -/
def optsBefore (elems : List XElem) : List String :=
  (elems.takeWhile (fun e => !(e.tag == "Question"))).filterMap
    (fun e => if e.tag == "Option-2" then some (pyStrip (e.text.getD "")) else none)

/-- Modelled from the spec (amended): reference description of which
question records `extract_questions_with_options` emits — one record per
`Question` element whose stripped text is nonempty and that is followed
by at least one `Option-2` element before the next `Question` element or
the end of the document. -/
def questionsSpec : List XElem → List QRec
  | [] => []
  | e :: rest =>
    if e.tag == "Question" then
      (let t := pyStrip (e.text.getD "")
       if !(t == "") && !(optsBefore rest).isEmpty then [(qnoOf t, t, optsBefore rest)]
       else []) ++ questionsSpec rest
    else questionsSpec rest

/-- Newline/tab collapse applied to the concatenated option text:
`.replace('\n', ' ').replace('\t', ' ')`. -/
def collapseWs (c : Char) : Char := if c == '\n' || c == '\t' then ' ' else c

/-- Python `" ".join(option_blocks)` followed by the newline/tab
replacement, as in `validate_options`. -/
def joinBlocks (blocks : List String) : List Char :=
  (List.intercalate [' '] (blocks.map String.data)).map collapseWs

/-- Lowercase ASCII letter test (regex `[a-z]`). -/
def isLowerCh (c : Char) : Bool := 'a' ≤ c && c ≤ 'z'

/-- Label test at the head of the string: a `([a-z])` marker. -/
def labelHead : List Char → Option Char
  | '(' :: c :: ')' :: _ => if isLowerCh c then some c else none
  | _ => none

/-- Split off the characters up to (excluding) the next `([a-z])` marker;
returns the content chunk and the remainder starting at that marker. -/
def collectContent : List Char → List Char × List Char
  | [] => ([], [])
  | c :: rest =>
    if (labelHead (c :: rest)).isSome then ([], c :: rest)
    else
      let p := collectContent rest
      (c :: p.1, p.2)

/-- Fuelled scan implementing `re.findall` for the option pattern of
`validate_options`: each match pairs a lowercase label with the text up
to the next label marker (or the end), with surrounding whitespace
stripped by the pattern. -/
def scanMatchesAux : Nat → List Char → List (Char × List Char)
  | 0, _ => []
  | _ + 1, [] => []
  | fuel + 1, c :: rest =>
    match labelHead (c :: rest) with
    | some l =>
      let p := collectContent (rest.drop 2)
      (l, stripChars p.1) :: scanMatchesAux fuel p.2
    | none => scanMatchesAux fuel rest

/-- All `(label, content)` matches of the option pattern. -/
def scanMatches (s : List Char) : List (Char × List Char) := scanMatchesAux s.length s

/-- Fuelled scan implementing `re.findall` for the bare label pattern
`([a-z])` used to compute `all_labels`. -/
def allLabelsAux : Nat → List Char → List Char
  | 0, _ => []
  | _ + 1, [] => []
  | fuel + 1, c :: rest =>
    match labelHead (c :: rest) with
    | some l => l :: allLabelsAux fuel (rest.drop 2)
    | none => allLabelsAux fuel rest

/-- All lowercase labels occurring in the string. -/
def allLabels (s : List Char) : List Char := allLabelsAux s.length s

/-- The accepted option labels. -/
def abcd : List Char := ['a', 'b', 'c', 'd']

/-- Python dict assignment `m[k] = v` on an insertion-ordered
association list: an existing key keeps its position and gets the new
value, a fresh key is appended. -/
def dictInsert (m : List (Char × List Char)) (k : Char) (v : List Char) :
    List (Char × List Char) :=
  if m.any (fun p => p.1 == k) then m.map (fun p => if p.1 == k then (k, v) else p)
  else m ++ [(k, v)]

/-- Python dict lookup `m.get(k)`. -/
def dictLookup : List (Char × List Char) → Char → Option (List Char)
  | [], _ => none
  | p :: m, k => if p.1 == k then some p.2 else dictLookup m k

/-- The `extracted` dict of `validate_options`: for each match whose
label is one of a–d, assign `extracted[label] = content.strip()`. -/
def buildExtracted (ms : List (Char × List Char)) : List (Char × List Char) :=
  ms.foldl (fun ex p => if p.1 ∈ abcd then dictInsert ex p.1 (stripChars p.2) else ex) []

/-- The `extracted` dict computed from a question's option blocks. -/
def extractedOfBlocks (blocks : List String) : List (Char × List Char) :=
  buildExtracted (scanMatches (joinBlocks blocks))

/-- One-character string. -/
def charStr (c : Char) : String := String.mk [c]

/-- A single-quote character as a string (code point 39). -/
def squote : String := String.mk [Char.ofNat 39]

/-- Python `sep.join(strings)`. -/
def pyJoin (sep : String) : List String → String
  | [] => ""
  | a :: as => as.foldl (fun acc x => acc ++ sep ++ x) a

/-- Python `sorted` on a character list. -/
def isortChar (l : List Char) : List Char := List.insertionSort (fun a b => a ≤ b) l

/-- The issue list computed by `validate_options` for one question's
option blocks, in the order the source appends them: invalid labels,
missing options, empty options, duplicate contents. -/
def questionIssues (option_blocks : List String) : List String :=
  let full := joinBlocks option_blocks
  let extracted := buildExtracted (scanMatches full)
  let invalid := (allLabels full).filter (fun l => decide (l ∉ abcd))
  let invalidIssues :=
    if invalid = [] then []
    else ["Invalid option labels: " ++ pyJoin ", " ((isortChar invalid.dedup).map charStr)]
  let missing := abcd.filter (fun o => !(extracted.any (fun p => p.1 == o)))
  let missingIssues :=
    if missing = [] then []
    else ["Missing options: " ++ pyJoin ", " (missing.map charStr)]
  let emptyIssues := extracted.filterMap (fun p =>
    if stripChars p.2 = [] then some ("Option " ++ charStr p.1 ++ " is empty") else none)
  let dupState := extracted.foldl
    (fun (acc : List String × List (List Char × Char)) p =>
      match acc.2.find? (fun q => q.1 == p.2) with
      | some q =>
        (acc.1 ++ ["Duplicate content in " ++ charStr q.2 ++ " and " ++ charStr p.1 ++
          ": " ++ squote ++ p.2.asString ++ squote], acc.2)
      | none => (acc.1, acc.2 ++ [(p.2, p.1)])) ([], [])
  invalidIssues ++ missingIssues ++ emptyIssues ++ dupState.1

/-- The per-question report block of `validate_options`, or `none` when
the question has no issues. -/
def questionReportLine (qno : String) (option_blocks : List String) : Option String :=
  let issues := questionIssues option_blocks
  if issues = [] then none
  else some ("Question " ++ qno ++ " issues:\n  - " ++ pyJoin "\n  - " issues)

/-- Embedding of `validate_options(questions_data)`. -/
def validate_options (questions_data : List QRec) : String :=
  let report_lines := questions_data.filterMap (fun q => questionReportLine q.1 q.2.2)
  if report_lines = [] then "No option issues found." else pyJoin "\n" report_lines

/-- Python repr of an integer list, e.g. `[2, 4]`. -/
def pyIntListRepr (l : List Int) : String :=
  "[" ++ pyJoin ", " (l.map toString) ++ "]"

/-- Embedding of `build_sequence_report(tag, numbers, issues)`. -/
def build_sequence_report (tag : String) (numbers : List (Option Int))
    (issues : IssueSet) : String :=
  let l1 := ["Validation for " ++ tag ++ "s",
             "Total numbered " ++ tag ++ "s found: " ++
               toString (numbers.filter (fun n => n.isSome)).length]
  let l2 := if issues.missing ≠ [] then
      l1 ++ ["Missing " ++ tag ++ " numbers: " ++ pyIntListRepr issues.missing] else l1
  let l3 := if issues.duplicates ≠ [] then
      l2 ++ ["Duplicate " ++ tag ++ " numbers: " ++ pyIntListRepr issues.duplicates] else l2
  let l4 := l3 ++ issues.sequence_errors.map (fun pc =>
    "After " ++ tag ++ " number " ++ toString pc.1 ++ ", found " ++ toString pc.2 ++
      " — sequence is incorrect.")
  let l5 := if issues.missing = [] ∧ issues.duplicates = [] ∧ issues.sequence_errors = [] then
      l4 ++ ["All " ++ tag ++ "s are in correct sequence and unique."] else l4
  pyJoin "\n" l5

/-- Helper for building a Clark-notation namespaced tag
`{uri}loc`, as ElementTree renders namespaced element tags. -/
def mkNs (uri loc : String) : String :=
  String.mk (lbrace :: (uri.data ++ rbrace :: loc.data))

/-! ### Shared helper lemmas -/

theorem strAppend_assoc (a b c : String) : a ++ b ++ c = a ++ (b ++ c) := by
  apply String.ext
  simp [String.data_append]

theorem le_foldl_max (xs : List Int) : ∀ a : Int, a ≤ xs.foldl max a := by
  induction xs with
  | nil => intro a; simp
  | cons x xs ih => intro a; exact le_trans (le_max_left a x) (ih (max a x))

theorem mem_le_foldl_max (xs : List Int) : ∀ a x : Int, x ∈ xs → x ≤ xs.foldl max a := by
  induction xs with
  | nil => intro a x h; cases h
  | cons y ys ih =>
    intro a x h
    rcases List.mem_cons.mp h with rfl | h
    · exact le_trans (le_max_right a x) (le_foldl_max ys (max a x))
    · exact ih (max a y) x h

theorem foldl_max_mem (xs : List Int) : ∀ a : Int, xs.foldl max a = a ∨ xs.foldl max a ∈ xs := by
  induction xs with
  | nil => intro a; left; rfl
  | cons y ys ih =>
    intro a
    rw [List.foldl_cons]
    rcases ih (max a y) with h | h
    · rcases max_choice a y with h' | h'
      · left; rw [h, h']
      · right; rw [h, h']; exact List.mem_cons_self y ys
    · right; exact List.mem_cons_of_mem y h

theorem pyMax_mem {l : List Int} (h : l ≠ []) : pyMax l ∈ l := by
  cases l with
  | nil => exact absurd rfl h
  | cons x xs =>
    show xs.foldl max x ∈ x :: xs
    rcases foldl_max_mem xs x with h' | h'
    · rw [h']; exact List.mem_cons_self x xs
    · exact List.mem_cons_of_mem x h'

theorem le_pyMax {l : List Int} {x : Int} (h : x ∈ l) : x ≤ pyMax l := by
  cases l with
  | nil => cases h
  | cons y ys =>
    show x ≤ ys.foldl max y
    rcases List.mem_cons.mp h with rfl | h
    · exact le_foldl_max ys x
    · exact mem_le_foldl_max ys y x h

theorem pyMax_perm {l₁ l₂ : List Int} (h : l₁.Perm l₂) (hne : l₁ ≠ []) :
    pyMax l₁ = pyMax l₂ := by
  have hne₂ : l₂ ≠ [] := fun h2 => hne (h2 ▸ h).eq_nil
  exact le_antisymm (le_pyMax (h.mem_iff.mp (pyMax_mem hne)))
    (le_pyMax (h.mem_iff.mpr (pyMax_mem hne₂)))

theorem mem_consecFrom : ∀ (k : Nat) (a x : Int), x ∈ consecFrom a k ↔ a ≤ x ∧ x < a + k
  | 0, a, x => by simp [consecFrom]
  | k + 1, a, x => by
    simp only [consecFrom, List.mem_cons, mem_consecFrom k (a + 1) x]
    push_cast
    omega

theorem nodup_consecFrom : ∀ (k : Nat) (a : Int), (consecFrom a k).Nodup
  | 0, _ => List.nodup_nil
  | k + 1, a => by
    simp only [consecFrom, List.nodup_cons]
    refine ⟨fun h => ?_, nodup_consecFrom k (a + 1)⟩
    have := (mem_consecFrom k (a + 1) a).mp h
    omega

theorem seqErrors_consecFrom : ∀ (k : Nat) (a : Int), seqErrors (consecFrom a k) = []
  | 0, _ => rfl
  | 1, _ => rfl
  | k + 2, a => by
    show seqErrors (a :: (a + 1) :: consecFrom (a + 1 + 1) k) = []
    rw [seqErrors]
    simp only [ne_eq, not_true_eq_false, if_neg (by omega : ¬ a + 1 ≠ a + 1),
      List.nil_append]
    exact seqErrors_consecFrom (k + 1) (a + 1)

theorem validOf_map_some (l : List Int) : validOf (l.map some) = l := by
  simp [validOf]

theorem pyMax_consecFrom_one (m : Nat) : pyMax (consecFrom 1 (m + 1)) = (m : Int) + 1 := by
  have hne : consecFrom 1 (m + 1) ≠ [] := by simp [consecFrom]
  have h1 := (mem_consecFrom (m + 1) 1 (pyMax (consecFrom 1 (m + 1)))).mp (pyMax_mem hne)
  have h2 : ((m : Int) + 1) ∈ consecFrom 1 (m + 1) := by
    rw [mem_consecFrom]
    push_cast
    omega
  have h3 := le_pyMax h2
  push_cast at h1
  omega

theorem missingOf_consecFrom_one (n : Nat) : missingOf (consecFrom 1 n) = [] := by
  cases n with
  | zero => rfl
  | succ m =>
    rw [missingOf, if_neg (by simp [consecFrom])]
    rw [pyMax_consecFrom_one m, pyRange1]
    have ht : ((m : Int) + 1).toNat = m + 1 := by omega
    rw [ht]
    have hf : (consecFrom 1 (m + 1)).filter
        (fun x => decide (x ∉ consecFrom 1 (m + 1))) = [] := by
      rw [List.filter_eq_nil_iff]
      intro a ha
      simp [ha]
    rw [hf]
    rfl

theorem duplicatesOf_nodup {l : List Int} (h : l.Nodup) : duplicatesOf l = [] := by
  rw [duplicatesOf]
  have hf : l.filter (fun x => decide (1 < l.count x)) = [] := by
    rw [List.filter_eq_nil_iff]
    intro a _
    have := List.nodup_iff_count_le_one.mp h a
    simp
    omega
  rw [hf]
  rfl

theorem detect_issues_all_none {l : List (Option Int)} (h : ∀ x ∈ l, x = none) :
    detect_issues l = ⟨[], [], []⟩ := by
  have hv : validOf l = [] := by
    rw [validOf, List.filterMap_eq_nil_iff]
    exact h
  rw [detect_issues, hv]
  rfl

theorem isortInt_perm_eq {l₁ l₂ : List Int} (h : l₁.Perm l₂) : isortInt l₁ = isortInt l₂ :=
  List.eq_of_perm_of_sorted
    ((List.perm_insertionSort (fun a b : Int => a ≤ b) l₁).trans
      (h.trans (List.perm_insertionSort (fun a b : Int => a ≤ b) l₂).symm))
    (List.sorted_insertionSort (fun a b : Int => a ≤ b) l₁)
    (List.sorted_insertionSort (fun a b : Int => a ≤ b) l₂)

theorem missingOf_perm {l₁ l₂ : List Int} (h : l₁.Perm l₂) : missingOf l₁ = missingOf l₂ := by
  by_cases h1 : l₁ = []
  · have h2 : l₂ = [] := ((h1 ▸ h : List.Perm [] l₂).symm).eq_nil
    rw [h1, h2]
  · have h2 : l₂ ≠ [] := fun h2 => h1 (h2 ▸ h).eq_nil
    rw [missingOf, missingOf, if_neg h1, if_neg h2, pyMax_perm h h1]
    congr 2
    apply List.filter_congr
    intro x _
    simp [decide_eq_decide, h.mem_iff]

theorem duplicatesOf_perm {l₁ l₂ : List Int} (h : l₁.Perm l₂) :
    duplicatesOf l₁ = duplicatesOf l₂ := by
  rw [duplicatesOf, duplicatesOf]
  have hstep : l₁.filter (fun x => decide (1 < l₁.count x)) =
      l₁.filter (fun x => decide (1 < l₂.count x)) := by
    apply List.filter_congr
    intro x _
    simp [decide_eq_decide, h.count_eq]
  rw [hstep]
  exact isortInt_perm_eq (List.Perm.dedup (h.filter _))

theorem dictLookup_map_update_self (k : Char) (v : List Char) :
    ∀ m : List (Char × List Char), m.any (fun p => p.1 == k) = true →
      dictLookup (m.map (fun p => if p.1 == k then (k, v) else p)) k = some v := by
  intro m
  induction m with
  | nil => intro h; simp at h
  | cons q m ih =>
    intro h
    by_cases hq : (q.1 == k) = true
    · simp only [List.map_cons, if_pos hq, dictLookup, beq_self_eq_true, if_true]
    · simp only [List.map_cons, if_neg hq, dictLookup, if_neg hq]
      apply ih
      have hq' : (q.1 == k) = false := by simpa using hq
      simpa [List.any_cons, hq'] using h

theorem dictLookup_map_update_ne (k : Char) (v : List Char) (k' : Char) (hk : k' ≠ k) :
    ∀ m : List (Char × List Char),
      dictLookup (m.map (fun p => if p.1 == k then (k, v) else p)) k' = dictLookup m k' := by
  intro m
  have hne : ¬ ((k : Char) == k') = true := by
    simp only [beq_iff_eq]
    exact fun h => hk h.symm
  induction m with
  | nil => rfl
  | cons q m ih =>
    by_cases hq : (q.1 == k) = true
    · have hq' : q.1 = k := by simpa using hq
      have hqk' : ¬ (q.1 == k') = true := by rw [hq']; exact hne
      simp only [List.map_cons, if_pos hq, dictLookup, if_neg hne, if_neg hqk', ih]
    · by_cases hq' : (q.1 == k') = true
      · simp only [List.map_cons, if_neg hq, dictLookup, if_pos hq']
      · simp only [List.map_cons, if_neg hq, dictLookup, if_neg hq', ih]

theorem dictLookup_append (m₁ m₂ : List (Char × List Char)) (k : Char) :
    dictLookup (m₁ ++ m₂) k =
      match dictLookup m₁ k with
      | some v => some v
      | none => dictLookup m₂ k := by
  induction m₁ with
  | nil => simp [dictLookup]
  | cons q m ih =>
    by_cases hq : (q.1 == k) = true
    · simp only [List.cons_append, dictLookup, if_pos hq]
    · simp only [List.cons_append, dictLookup, if_neg hq]
      exact ih

theorem dictLookup_dictInsert_self (m : List (Char × List Char)) (k : Char) (v : List Char) :
    dictLookup (dictInsert m k v) k = some v := by
  rw [dictInsert]
  by_cases h : m.any (fun p => p.1 == k) = true
  · rw [if_pos h]
    exact dictLookup_map_update_self k v m h
  · rw [if_neg h, dictLookup_append]
    have hn : dictLookup m k = none := by
      induction m with
      | nil => rfl
      | cons q m ih =>
        have hq : ¬ (q.1 == k) = true := fun hq =>
          h (List.any_eq_true.mpr ⟨q, List.mem_cons_self q m, hq⟩)
        rw [dictLookup, if_neg hq]
        apply ih
        intro h2
        rcases List.any_eq_true.mp h2 with ⟨p, hp, hpk⟩
        exact h (List.any_eq_true.mpr ⟨p, List.mem_cons_of_mem q hp, hpk⟩)
    rw [hn]
    simp [dictLookup]

theorem dictLookup_dictInsert_ne (m : List (Char × List Char)) (k : Char) (v : List Char)
    (k' : Char) (hk : k' ≠ k) : dictLookup (dictInsert m k v) k' = dictLookup m k' := by
  rw [dictInsert]
  by_cases h : m.any (fun p => p.1 == k) = true
  · rw [if_pos h]
    exact dictLookup_map_update_ne k v k' hk m
  · rw [if_neg h, dictLookup_append]
    have hkv : dictLookup [(k, v)] k' = none := by
      have : ¬ ((k : Char) == k') = true := by
        simp only [beq_iff_eq]
        exact fun h2 => hk h2.symm
      simp [dictLookup, this]
    cases hm : dictLookup m k' with
    | none => rw [hkv]
    | some w => rfl

theorem getLast?_cons_match {α : Type} (v : α) (vs : List α) :
    (v :: vs).getLast? =
      match vs.getLast? with
      | some w => some w
      | none => some v := by
  induction vs generalizing v with
  | nil => rfl
  | cons w ws ih =>
    rw [List.getLast?_cons_cons, ih w]
    cases hws : ws.getLast? <;> rfl

theorem buildExtracted_go (l : Char) (hl : l ∈ abcd) :
    ∀ ms ex : List (Char × List Char),
      dictLookup (ms.foldl (fun ex p =>
          if p.1 ∈ abcd then dictInsert ex p.1 (stripChars p.2) else ex) ex) l =
        match ((ms.filter (fun p => p.1 == l)).map (fun p => stripChars p.2)).getLast? with
        | some w => some w
        | none => dictLookup ex l := by
  intro ms
  induction ms with
  | nil => intro ex; rfl
  | cons p ms ih =>
    intro ex
    rw [List.foldl_cons, ih]
    by_cases hpl : (p.1 == l) = true
    · have hpe : p.1 = l := by simpa using hpl
      have hpa : p.1 ∈ abcd := by rw [hpe]; exact hl
      have hf : List.filter (fun p => p.1 == l) (p :: ms) =
          p :: List.filter (fun p => p.1 == l) ms := by
        simp [List.filter_cons, hpl]
      rw [if_pos hpa, hf, List.map_cons, getLast?_cons_match]
      rw [hpe, dictLookup_dictInsert_self]
      cases hvs : ((ms.filter (fun p => p.1 == l)).map (fun p => stripChars p.2)).getLast? <;>
        rfl
    · have hne : l ≠ p.1 := by
        intro h2
        exact hpl (by simp [h2])
      have hf : List.filter (fun p => p.1 == l) (p :: ms) =
          List.filter (fun p => p.1 == l) ms := by
        simp [List.filter_cons, hpl]
      rw [hf]
      by_cases hpa : p.1 ∈ abcd
      · rw [if_pos hpa, dictLookup_dictInsert_ne _ _ _ _ hne]
      · rw [if_neg hpa]

theorem extractQAux_eq :
    ∀ (elems : List XElem) (cq : Option String) (cqno : String) (copts : List String),
      extractQAux cq cqno copts elems =
        (if truthy cq && !(copts ++ optsBefore elems).isEmpty then
          [(cqno, cq.getD "", copts ++ optsBefore elems)] else []) ++ questionsSpec elems := by
  intro elems
  induction elems with
  | nil =>
    intro cq cqno copts
    simp [extractQAux, optsBefore, questionsSpec]
  | cons e rest ih =>
    intro cq cqno copts
    by_cases hq : (e.tag == "Question") = true
    · have hob : optsBefore (e :: rest) = [] := by
        simp [optsBefore, List.takeWhile_cons, hq]
      simp only [extractQAux, if_pos hq, hob, questionsSpec, List.append_nil, ih,
        List.nil_append, truthy]
      simp [List.append_assoc]
    · by_cases ho : (e.tag == "Option-2") = true
      · have ho' : e.tag = "Option-2" := by simpa using ho
        have hob : optsBefore (e :: rest) =
            pyStrip (e.text.getD "") :: optsBefore rest := by
          simp [optsBefore, List.takeWhile_cons, hq, ho', List.filterMap_cons]
        simp only [extractQAux, if_neg hq, if_pos ho, hob, questionsSpec, ih]
        simp [List.append_assoc]
      · have ho' : ¬ e.tag = "Option-2" := by simpa using ho
        have hob : optsBefore (e :: rest) = optsBefore rest := by
          simp [optsBefore, List.takeWhile_cons, hq, ho', List.filterMap_cons]
        simp only [extractQAux, if_neg hq, if_neg ho, hob, questionsSpec, ih]

theorem dropNsTail_append (r : List Char) :
    ∀ u : List Char, rbrace ∉ u → dropNsTail (u ++ rbrace :: r) = r := by
  intro u
  induction u with
  | nil =>
    intro _
    show dropNsTail (rbrace :: r) = r
    rw [dropNsTail, if_pos (beq_self_eq_true rbrace)]
  | cons c u ih =>
    intro h
    have hc : ¬ (c == rbrace) = true := by
      simp only [beq_iff_eq]
      intro h2
      exact h (by simp [h2])
    rw [List.cons_append, dropNsTail, if_neg hc]
    exact ih (fun hm => h (List.mem_cons_of_mem c hm))

theorem localname_mkNs (uri loc : String) (h : rbrace ∉ uri.data) :
    localname (mkNs uri loc).data = loc.data := by
  show localname (lbrace :: (uri.data ++ rbrace :: loc.data)) = loc.data
  rw [localname, if_pos (beq_self_eq_true lbrace)]
  exact dropNsTail_append loc.data uri.data h

theorem mkNs_beq_false (uri loc s : String) (h : s.data.head? ≠ some lbrace) :
    (mkNs uri loc == s) = false := by
  rw [beq_eq_false_iff_ne]
  intro he
  apply h
  rw [← he]
  rfl

theorem localname_no_brace (s : List Char) (h : s.head? ≠ some lbrace) : localname s = s := by
  cases s with
  | nil => rfl
  | cons c rest =>
    have hc : ¬ (c == lbrace) = true := by
      simp only [beq_iff_eq]
      intro h2
      exact h (by simp [h2])
    rw [localname, if_neg hc]

/-! ### Claim theorems -/

/-- C1, counterexample: in `validate_options`, on the concatenated option
text `(a) X (b) Y (c) Z (d) W (a) Q` the first match for label `a` has
content `X`, yet the label-to-content map ends up mapping `a` to `Q`, the
content of the later occurrence — so the first occurrence does NOT win. -/
theorem c1_counterexample :
    (scanMatches (joinBlocks ["(a) X (b) Y (c) Z (d) W (a) Q"])).head? =
      some ('a', ['X']) ∧
    dictLookup (extractedOfBlocks ["(a) X (b) Y (c) Z (d) W (a) Q"]) 'a' = some ['Q'] ∧
    ¬ dictLookup (extractedOfBlocks ["(a) X (b) Y (c) Z (d) W (a) Q"]) 'a' = some ['X'] := by
  decide

/-- C1, amended: when the same option label in a–d occurs more than once
among a question's option matches, the content of the LAST occurrence is
the one kept in the label-to-content map — each later same-label match
overwrites the earlier one (plain dict assignment in the source). -/
theorem c1_last_occurrence_wins (ms : List (Char × List Char)) (l : Char) (h : l ∈ abcd) :
    dictLookup (buildExtracted ms) l =
      ((ms.filter (fun p => p.1 == l)).map (fun p => stripChars p.2)).getLast? := by
  rw [buildExtracted, buildExtracted_go l h ms []]
  cases hx : ((ms.filter (fun p => p.1 == l)).map (fun p => stripChars p.2)).getLast? <;> rfl

/-- C1, witness: the amended theorem at a concrete match list with a
duplicated label `a`. -/
theorem c1_witness :
    dictLookup (buildExtracted [('a', ['X']), ('b', ['Y']), ('a', ['Q'])]) 'a' =
      some ['Q'] :=
  (c1_last_occurrence_wins [('a', ['X']), ('b', ['Y']), ('a', ['Q'])] 'a' (by decide)).trans
    (by decide)

/-- C2, counterexample: a `Question` element with no text, followed by an
`Option-2` block, is dropped by `extract_questions_with_options` — so it
is not true that every Question with at least one option block is
flushed into the result. -/
theorem c2_counterexample :
    extract_questions_with_options
      [⟨"Question", none⟩, ⟨"Option-2", some "(a) w (b) x (c) y (d) z"⟩] = [] := by
  decide

/-- C2, amended: `extract_questions_with_options` includes a question
record if and only if the Question element's stripped text is nonempty
AND at least one `Option-2` block follows it before the next Question
element (or the end of the document); this is stated as equality with
the reference description `questionsSpec`. -/
theorem c2_extract_eq_spec (elems : List XElem) :
    extract_questions_with_options elems = questionsSpec elems := by
  rw [extract_questions_with_options, extractQAux_eq]
  simp [truthy]

/-- C3, counterexample: a namespaced `{ns}Question` element (with a
namespaced option block) is not recognized by
`extract_questions_with_options`, which yields no record, while
`extract_numbered_elements` does recognize the same element by its local
name — tag matching is not namespace-agnostic throughout the pipeline. -/
theorem c3_counterexample :
    extract_questions_with_options
      [⟨mkNs "ns" "Question", some "1. Q?"⟩, ⟨mkNs "ns" "Option-2", some "(a) x"⟩] = [] ∧
    (extract_numbered_elements [⟨mkNs "ns" "Question", some "1. Q?"⟩] "Question").2 =
      [some 1] := by
  decide

/-- C3, amended: `extract_numbered_elements` and `extract_answer_keys`
match elements by local tag name, namespace-agnostically (a `{uri}Tag`
element behaves exactly like a bare `Tag` element), but
`extract_questions_with_options` compares the raw tag string, so a
namespaced Question element produces no record there. -/
theorem c3_namespace_handling (uri qt : String) (h : rbrace ∉ uri.data) :
    extract_numbered_elements [⟨mkNs uri "Question", some qt⟩] "Question" =
      extract_numbered_elements [⟨"Question", some qt⟩] "Question" ∧
    extract_answer_keys [⟨mkNs uri "Answer", some qt⟩] =
      extract_answer_keys [⟨"Answer", some qt⟩] ∧
    extract_questions_with_options
      [⟨mkNs uri "Question", some qt⟩, ⟨"Option-2", some "(a) x (b) y (c) z (d) w"⟩] = [] := by
  refine ⟨?_, ?_, ?_⟩
  · simp [extract_numbered_elements, localname_mkNs uri "Question" h,
      localname_no_brace "Question".data (by decide)]
  · simp [extract_answer_keys, localname_mkNs uri "Answer" h,
      localname_no_brace "Answer".data (by decide)]
  · have hq1 : ¬ mkNs uri "Question" = "Question" :=
      beq_eq_false_iff_ne.mp (mkNs_beq_false uri "Question" "Question" (by decide))
    rw [extract_questions_with_options, extractQAux_eq]
    simp [truthy, questionsSpec, hq1,
      (by decide : ¬ ("Option-2" : String) = "Question")]

/-- C3, witness: the amended theorem at the concrete namespace `ns` and
question text `1. Q?`. -/
theorem c3_witness :
    extract_numbered_elements [⟨mkNs "ns" "Question", some "1. Q?"⟩] "Question" =
      extract_numbered_elements [⟨"Question", some "1. Q?"⟩] "Question" ∧
    extract_answer_keys [⟨mkNs "ns" "Answer", some "1. Q?"⟩] =
      extract_answer_keys [⟨"Answer", some "1. Q?"⟩] ∧
    extract_questions_with_options
      [⟨mkNs "ns" "Question", some "1. Q?"⟩,
       ⟨"Option-2", some "(a) x (b) y (c) z (d) w"⟩] = [] :=
  c3_namespace_handling "ns" "1. Q?" (by decide)

/-- C4: `detect_issues` on the list `[1, 3, 3, 5]` returns exactly
missing `[2, 4]`, duplicates `[3]`, and sequence errors
`[(1, 3), (3, 3), (3, 5)]` in encounter order. -/
theorem c4_detect_issues_example :
    detect_issues [some 1, some 3, some 3, some 5] =
      ⟨[2, 4], [3], [(1, 3), (3, 3), (3, 5)]⟩ := by
  decide

/-- C5: for every n, `detect_issues` on the contiguous list `[1, ..., n]`
returns empty missing, duplicates and sequence errors; and any list of
only absent entries (in particular the empty list) also yields the
all-empty issue set. -/
theorem c5_contiguous_no_issues (n : Nat) (l : List (Option Int))
    (h : ∀ x ∈ l, x = none) :
    detect_issues ((consecFrom 1 n).map some) = ⟨[], [], []⟩ ∧
    detect_issues l = ⟨[], [], []⟩ := by
  refine ⟨?_, detect_issues_all_none h⟩
  rw [detect_issues, validOf_map_some]
  rw [missingOf_consecFrom_one, duplicatesOf_nodup (nodup_consecFrom n 1),
    seqErrors_consecFrom]

/-- C5, witness: the theorem at n = 3 and the all-absent list
`[none, none]`. -/
theorem c5_witness :
    detect_issues ((consecFrom 1 3).map some) = ⟨[], [], []⟩ ∧
    detect_issues [none, none] = ⟨[], [], []⟩ :=
  c5_contiguous_no_issues 3 [none, none] (by decide)

/-- C6: `extract_answer_keys` collects the numbers of all
`<number>. (<letter>)` citations, letter case-insensitive over a–e, in
encounter order: on answer text `3. (b) 7. (D)` it yields `[3, 7]`, and
the pattern also matches away from the start of the text. -/
theorem c6_answer_key_example :
    (extract_answer_keys [⟨"Answer", some "3. (b) 7. (D)"⟩]).2 = [3, 7] ∧
    (extract_answer_keys [⟨"Answer", some "see 3. (b) and 7. (D) end"⟩]).2 = [3, 7] := by
  decide

/-- C7: `validate_options` issue classification on the spec's examples:
duplicate content of `a` and `c` on the first text, and an invalid label
`e` plus missing options `c` and `d` on the second. -/
theorem c7_option_validation_examples :
    questionIssues ["(a) Paris (b) London (c) Paris (d) Rome"] =
      ["Duplicate content in a and c: " ++ squote ++ "Paris" ++ squote] ∧
    questionIssues ["(a) X (b) Y (e) Z"] =
      ["Invalid option labels: e", "Missing options: c, d"] := by
  decide

/-- C8: for every numbers list, `build_sequence_report` for tag
`Question` with an all-empty issue set consists of the header, the total
count line and the all-clear line only. -/
theorem c8_all_clear_report (numbers : List (Option Int)) :
    build_sequence_report "Question" numbers ⟨[], [], []⟩ =
      "Validation for Questions\nTotal numbered Questions found: " ++
        toString (numbers.filter (fun n => n.isSome)).length ++
        "\nAll Questions are in correct sequence and unique." := by
  have h1 : "Validation for Questions\nTotal numbered Questions found: " =
      "Validation for " ++ "Question" ++ "s" ++ "\n" ++ "Total numbered " ++ "Question" ++
        "s found: " := by decide
  have h2 : "\nAll Questions are in correct sequence and unique." =
      "\n" ++ "All " ++ "Question" ++ "s are in correct sequence and unique." := by decide
  rw [h1, h2]
  simp only [build_sequence_report, pyJoin]
  norm_num
  simp only [strAppend_assoc]

/-- C9: an uppercase option label such as `(B)` is not recognized by
`validate_options`: it is not a key of the label-to-content map, it is
not reported as invalid (the bare-label scan only sees `a`, `c`, `d`),
its text is absorbed into the preceding option `a`'s content, and the
lowercase option `b` is reported missing. -/
theorem c9_uppercase_label_ignored :
    questionIssues ["(a) X (B) Y (c) Z (d) W"] = ["Missing options: b"] ∧
    dictLookup (extractedOfBlocks ["(a) X (B) Y (c) Z (d) W"]) 'B' = none ∧
    dictLookup (extractedOfBlocks ["(a) X (B) Y (c) Z (d) W"]) 'a' = some "X (B) Y".data ∧
    allLabels (joinBlocks ["(a) X (B) Y (c) Z (d) W"]) = ['a', 'c', 'd'] := by
  decide

/-- C10: for every numbers list and every permutation of it,
`detect_issues` returns the same missing field and the same duplicates
field; only the sequence-errors field can depend on the input order. -/
theorem c10_missing_duplicates_perm_invariant (l₁ l₂ : List (Option Int))
    (h : l₁.Perm l₂) :
    (detect_issues l₁).missing = (detect_issues l₂).missing ∧
    (detect_issues l₁).duplicates = (detect_issues l₂).duplicates := by
  have hv : (validOf l₁).Perm (validOf l₂) := h.filterMap id
  exact ⟨missingOf_perm hv, duplicatesOf_perm hv⟩

/-- C10, witness: the theorem at the concrete permutation
`[some 3, some 1]` of `[some 1, some 3]`. -/
theorem c10_witness :
    (detect_issues [some 3, some 1]).missing =
      (detect_issues [some 1, some 3]).missing ∧
    (detect_issues [some 3, some 1]).duplicates =
      (detect_issues [some 1, some 3]).duplicates :=
  c10_missing_duplicates_perm_invariant [some 3, some 1] [some 1, some 3] (by decide)
